import Mathlib

/-!
Shallow embedding of the `owned-drop` crate (`src/lib.rs`).

The crate wraps a value in `DropOwned<T>(ManuallyDrop<T>)` so that, when the
wrapper is dropped, the contained value is moved out of the slot and handed
by value to the user-supplied `OwnedDroppable.drop_owned` finalizer.

Embedding choices:
* `ManuallyDrop T` is modelled as a slot that is either `occupied v` or
  `vacated` (the dynamically moved-from state left behind by
  `ManuallyDrop.take`).  Taking from a vacated slot is undefined behaviour in
  Rust; the model returns `none` there.
* The trait `OwnedDroppable` is a dictionary whose `drop_owned` method is a
  state transformer on an external effect state `S` (the finalizer may touch
  arbitrary shared state).
* Rust's drop discipline (each wrapper sees some reads/writes and then exactly
  one end-of-life event) is modelled by a small-step lifecycle semantics over
  `Phase`/`Event` traces; `instrument` additionally logs every value the
  finalizer is invoked on, so "exactly once" becomes a statement about the
  length of that log.
-/

namespace OwnedDrop

/-- Model of `core::mem::ManuallyDrop<T>`: a storage slot that is either
occupied by a value or vacated (the value was moved out). -/
inductive ManuallyDrop (T : Type) : Type where
  | occupied (val : T)
  | vacated
deriving DecidableEq, Repr

/-- `ManuallyDrop::new`. -/
def ManuallyDrop.new {T : Type} (val : T) : ManuallyDrop T :=
  ManuallyDrop.occupied val

/-- `ManuallyDrop::take`: move the value out, leaving the slot vacated.
Taking from an already vacated slot is undefined behaviour in Rust and is
modelled as `none`. -/
def ManuallyDrop.take {T : Type} : ManuallyDrop T → Option (T × ManuallyDrop T)
  | ManuallyDrop.occupied v => some (v, ManuallyDrop.vacated)
  | ManuallyDrop.vacated => none

/-- `ManuallyDrop::deref`: read access to the contained value (`none` models
the undefined behaviour of reading a vacated slot). -/
def ManuallyDrop.deref {T : Type} : ManuallyDrop T → Option T
  | ManuallyDrop.occupied v => some v
  | ManuallyDrop.vacated => none

/-- `ManuallyDrop::deref_mut`: mutable access, modelled as applying a mutation
function to the contained value. -/
def ManuallyDrop.derefMut {T : Type} (f : T → T) :
    ManuallyDrop T → Option (ManuallyDrop T)
  | ManuallyDrop.occupied v => some (ManuallyDrop.occupied (f v))
  | ManuallyDrop.vacated => none

/-- Modelled from std documentation: the compiler-generated drop glue of
`ManuallyDrop<T>` never runs the destructor of the contained value (that is
the whole point of the type), whether the slot is occupied or vacated.  The
result lists the values whose destructor the ambient system runs: none. -/
def ManuallyDrop.fieldDtors {T : Type} : ManuallyDrop T → List T :=
  fun _ => []

/-- The trait `OwnedDroppable`: the single method `drop_owned(self)` consumes
the value; its side effects are modelled as a transformer on an external
effect state `S`. -/
structure OwnedDroppable (T S : Type) : Type where
  drop_owned : T → S → S

/-- `pub struct DropOwned<T: OwnedDroppable>(ManuallyDrop<T>);` -/
structure DropOwned (T : Type) : Type where
  md : ManuallyDrop T
deriving DecidableEq, Repr

/-- `DropOwned::new`: place the value into the occupied slot. -/
def DropOwned.new {T : Type} (val : T) : DropOwned T :=
  DropOwned.mk (ManuallyDrop.new val)

/-- The free convenience function `drop_owned(val)` from `lib.rs` (its
`T: OwnedDroppable` bound is purely type-level and carries no data). -/
def drop_owned {T : Type} (val : T) : DropOwned T :=
  DropOwned.new val

/-- `From<T> for DropOwned<T>` (`from` is a reserved word in Lean, hence the
name `from_val`): `DropOwned::new(val)`. -/
def DropOwned.from_val {T : Type} (val : T) : DropOwned T :=
  DropOwned.new val

/-- `DropOwned::into_inner`: the wrapper is first wrapped in an outer
`ManuallyDrop` (which suppresses the wrapper's own `Drop` glue — reflected in
the lifecycle semantics by the `extract` event ending the wrapper's life
without a finalize step), then the value is taken out of the inner slot. -/
def DropOwned.into_inner {T : Type} (slot : DropOwned T) : Option T :=
  (ManuallyDrop.take slot.md).map Prod.fst

/-- `Deref for DropOwned`: borrow the contained value. -/
def DropOwned.deref {T : Type} (self : DropOwned T) : Option T :=
  ManuallyDrop.deref self.md

/-- `DerefMut for DropOwned`: mutate the contained value in place. -/
def DropOwned.deref_mut {T : Type} (f : T → T) (self : DropOwned T) :
    Option (DropOwned T) :=
  (ManuallyDrop.derefMut f self.md).map DropOwned.mk

/-- `Drop for DropOwned`: take the value out of the slot and pass it, by
value, to the `drop_owned` finalizer. -/
def DropOwned.drop {T S : Type} (inst : OwnedDroppable T S)
    (self : DropOwned T) (s : S) : Option (DropOwned T × S) :=
  (ManuallyDrop.take self.md).map
    (fun p => (DropOwned.mk p.2, inst.drop_owned p.1 s))

/-- The full compiler-generated teardown of a `DropOwned` value: run the
user `Drop::drop` body, then drop the fields; the only field is a
`ManuallyDrop<T>`, whose glue runs no destructor (`ManuallyDrop.fieldDtors`).
The second component lists the values whose destructor the ambient system
ran. -/
def DropOwned.dropGlue {T S : Type} (inst : OwnedDroppable T S)
    (self : DropOwned T) (s : S) : Option (S × List T) :=
  (DropOwned.drop inst self s).map
    (fun r => (r.2, ManuallyDrop.fieldDtors r.1.md))

/-- Instrumented finalizer: behaves exactly like `inst` but additionally logs
every value `drop_owned` is invoked on. -/
def instrument {T S : Type} (inst : OwnedDroppable T S) :
    OwnedDroppable T (S × List T) :=
  OwnedDroppable.mk (fun v p => (inst.drop_owned v p.1, p.2 ++ [v]))

/-- Lifecycle state of one wrapper instance: in scope, or consumed (dropped
or moved out of by `into_inner`). -/
inductive Phase (T : Type) : Type where
  | live (w : DropOwned T)
  | dead
deriving DecidableEq, Repr

/-- Events the host language can subject a wrapper to during its life. -/
inductive Event (T : Type) : Type where
  | read
  | modify (f : T → T)
  | scope_end
  | extract

/-- Events that are transparent accesses (Deref / DerefMut). -/
def isAccess {T : Type} : Event T → Bool
  | Event.read => true
  | Event.modify _ => true
  | Event.scope_end => false
  | Event.extract => false

/-- Effect of one access event on the contained value. -/
def applyEvent {T : Type} : Event T → T → T
  | Event.modify f, v => f v
  | Event.read, v => v
  | Event.scope_end, v => v
  | Event.extract, v => v

/-- Cumulative effect of a list of access events on the contained value. -/
def applyAccesses {T : Type} (es : List (Event T)) (v : T) : T :=
  es.foldl (fun a e => applyEvent e a) v

/-- First-hit combination of extraction results. -/
def orFirst {T : Type} : Option T → Option T → Option T
  | some a, _ => some a
  | none, b => b

/-- One lifecycle step.  Reads and writes go through the Deref / DerefMut
impls and require a live wrapper; `scope_end` runs the `Drop` impl
(`DropOwned.drop`); `extract` runs `into_inner`, which consumes the wrapper
without running its `Drop` impl.  A consumed wrapper admits no event (Rust's
ownership discipline).  The third result component is the value handed back
to the caller by `into_inner`, if any. -/
def step {T S : Type} (inst : OwnedDroppable T S) :
    Phase T → S → Event T → Option (Phase T × S × Option T)
  | Phase.live w, s, Event.read =>
      (DropOwned.deref w).map (fun _ => (Phase.live w, s, none))
  | Phase.live w, s, Event.modify f =>
      (DropOwned.deref_mut f w).map (fun w2 => (Phase.live w2, s, none))
  | Phase.live w, s, Event.scope_end =>
      (DropOwned.drop inst w s).map (fun r => (Phase.dead, r.2, none))
  | Phase.live w, s, Event.extract =>
      (DropOwned.into_inner w).map (fun v => (Phase.dead, s, some v))
  | Phase.dead, _, _ => none

/-- Run a trace of lifecycle events. -/
def run {T S : Type} (inst : OwnedDroppable T S) :
    Phase T → S → List (Event T) → Option (Phase T × S × Option T)
  | p, s, [] => some (p, s, none)
  | p, s, e :: es =>
    match step inst p s e with
    | none => none
    | some r =>
      match run inst r.1 r.2.1 es with
      | none => none
      | some r2 => some (r2.1, r2.2.1, orFirst r.2.2 r2.2.2)

/-- Fallible variant of the trait, used to model a finalizer that may fail
(panic): `drop_owned` returns the new effect state together with an optional
failure of type `E`. -/
structure OwnedDroppableF (T S E : Type) : Type where
  drop_owned : T → S → S × Option E

/-- Instrumented fallible finalizer: behaves like `inst` but logs each value
it is invoked on. -/
def instrumentF {T S E : Type} (inst : OwnedDroppableF T S E) :
    OwnedDroppableF T (S × List T) E :=
  OwnedDroppableF.mk (fun v p =>
    (((inst.drop_owned v p.1).1, p.2 ++ [v]), (inst.drop_owned v p.1).2))

/-- `Drop for DropOwned` against a fallible finalizer: the value is taken out
of the slot and handed to `drop_owned`; a failure raised there is returned
unhandled (the `Drop` body neither catches, retries, nor recovers it). -/
def DropOwned.dropF {T S E : Type} (inst : OwnedDroppableF T S E)
    (self : DropOwned T) (s : S) : Option (DropOwned T × S × Option E) :=
  (ManuallyDrop.take self.md).map
    (fun p =>
      (DropOwned.mk p.2, (inst.drop_owned p.1 s).1, (inst.drop_owned p.1 s).2))

/-- The concrete finalizer used in concrete instantiations: appends the
finalized value to an external list (the spec's own test scenario). -/
def natInst : OwnedDroppable Nat (List Nat) :=
  OwnedDroppable.mk (fun v s => s ++ [v])

/-- A consumed wrapper admits no further lifecycle event. -/
theorem step_dead {T S : Type} (inst : OwnedDroppable T S) (s : S)
    (e : Event T) : step inst Phase.dead s e = none := by
  cases e <;> rfl

/-- A run from the consumed phase succeeds only on the empty trace. -/
theorem run_dead {T S : Type} (inst : OwnedDroppable T S) :
    ∀ (es : List (Event T)) (s : S) (r : Phase T × S × Option T),
    run inst Phase.dead s es = some r → es = [] ∧ r = (Phase.dead, s, none) := by
  intro es s r h
  cases es with
  | nil =>
    refine ⟨rfl, ?_⟩
    simp [run] at h
    exact h.symm
  | cons e es =>
    rw [run] at h
    rw [step_dead] at h
    exact absurd h (by simp)

/-- Access events keep the wrapper live and occupied, leave the effect state
untouched, and their cumulative effect on the contained value is
`applyAccesses`. -/
theorem run_append_accesses {T S : Type} (inst : OwnedDroppable T S) :
    ∀ (es : List (Event T)), (∀ e ∈ es, isAccess e = true) →
    ∀ (v : T) (s : S) (rest : List (Event T)),
    run inst (Phase.live (DropOwned.mk (ManuallyDrop.occupied v))) s (es ++ rest)
      = run inst
          (Phase.live (DropOwned.mk (ManuallyDrop.occupied (applyAccesses es v))))
          s rest := by
  intro es
  induction es with
  | nil =>
    intro _ v s rest
    simp [applyAccesses]
  | cons e es ih =>
    intro h v s rest
    have he : isAccess e = true := h e (List.mem_cons_self _ _)
    have hes : ∀ x ∈ es, isAccess x = true :=
      fun x hx => h x (List.mem_cons_of_mem _ hx)
    cases e with
    | read =>
      rw [List.cons_append, run]
      simp only [step, DropOwned.deref, ManuallyDrop.deref, Option.map]
      rw [ih hes v s rest]
      have hA : applyAccesses (Event.read :: es) v = applyAccesses es v := rfl
      rw [hA]
      cases hR : run inst
          (Phase.live (DropOwned.mk (ManuallyDrop.occupied (applyAccesses es v))))
          s rest with
      | none => rfl
      | some r2 => rfl
    | modify f =>
      rw [List.cons_append, run]
      simp only [step, DropOwned.deref_mut, ManuallyDrop.derefMut, Option.map]
      rw [ih hes (f v) s rest]
      have hA : applyAccesses (Event.modify f :: es) v = applyAccesses es (f v) := rfl
      rw [hA]
      cases hR : run inst
          (Phase.live (DropOwned.mk (ManuallyDrop.occupied (applyAccesses es (f v)))))
          s rest with
      | none => rfl
      | some r2 => rfl
    | scope_end => exact absurd he (by simp [isAccess])
    | extract => exact absurd he (by simp [isAccess])

/-- Classification of all successful runs that start from a live, occupied
wrapper: either the wrapper is still live and occupied with the effect state
untouched, or it died through the finalize path (effect state transformed by
one `drop_owned` call, nothing extracted), or it died through the extraction
path (effect state untouched, one value handed out). -/
theorem run_occupied_spec {T S : Type} (inst : OwnedDroppable T S) :
    ∀ (es : List (Event T)) (v : T) (s : S) (r : Phase T × S × Option T),
    run inst (Phase.live (DropOwned.mk (ManuallyDrop.occupied v))) s es = some r →
    (∃ v2, r = (Phase.live (DropOwned.mk (ManuallyDrop.occupied v2)), s, none)) ∨
    (∃ v2, r = (Phase.dead, inst.drop_owned v2 s, none)) ∨
    (∃ v2, r = (Phase.dead, s, some v2)) := by
  intro es
  induction es with
  | nil =>
    intro v s r h
    left
    refine ⟨v, ?_⟩
    simp [run] at h
    exact h.symm
  | cons e es ih =>
    intro v s r h
    cases e with
    | read =>
      rw [run] at h
      simp only [step, DropOwned.deref, ManuallyDrop.deref, Option.map] at h
      cases hR : run inst
          (Phase.live (DropOwned.mk (ManuallyDrop.occupied v))) s es with
      | none =>
        rw [hR] at h
        exact absurd h (by simp)
      | some r2 =>
        rw [hR] at h
        simp only [Option.some.injEq] at h
        have hr : r = r2 := h.symm
        rw [hr]
        exact ih v s r2 hR
    | modify f =>
      rw [run] at h
      simp only [step, DropOwned.deref_mut, ManuallyDrop.derefMut, Option.map] at h
      cases hR : run inst
          (Phase.live (DropOwned.mk (ManuallyDrop.occupied (f v)))) s es with
      | none =>
        rw [hR] at h
        exact absurd h (by simp)
      | some r2 =>
        rw [hR] at h
        simp only [Option.some.injEq] at h
        have hr : r = r2 := h.symm
        rw [hr]
        exact ih (f v) s r2 hR
    | scope_end =>
      rw [run] at h
      simp only [step, DropOwned.drop, ManuallyDrop.take, Option.map] at h
      cases hR : run inst Phase.dead (inst.drop_owned v s) es with
      | none =>
        rw [hR] at h
        exact absurd h (by simp)
      | some r2 =>
        rw [hR] at h
        simp only [Option.some.injEq] at h
        obtain ⟨-, hr2⟩ := run_dead inst es (inst.drop_owned v s) r2 hR
        subst hr2
        right; left
        exact ⟨v, h.symm⟩
    | extract =>
      rw [run] at h
      simp only [step, DropOwned.into_inner, ManuallyDrop.take, Option.map] at h
      cases hR : run inst Phase.dead s es with
      | none =>
        rw [hR] at h
        exact absurd h (by simp)
      | some r2 =>
        rw [hR] at h
        simp only [Option.some.injEq] at h
        obtain ⟨-, hr2⟩ := run_dead inst es s r2 hR
        subst hr2
        right; right
        exact ⟨v, h.symm⟩

/-- Claim C1: constructing `DropOwned.new v` and letting the wrapper go out of
scope (its `Drop` implementation running) invokes `drop_owned` exactly once on
the contained value — the instrumented finalizer log holds exactly one entry,
never zero, never more — for every sequence of transparent accesses in
between; and a repeated teardown attempt on the same, already consumed
instance is rejected outright, so it cannot add a second invocation. -/
theorem new_scope_exit_finalizes_exactly_once {T S : Type}
    (inst : OwnedDroppable T S) (v : T) (s : S) (es : List (Event T))
    (hes : ∀ e ∈ es, isAccess e = true) :
    run (instrument inst) (Phase.live (DropOwned.new v)) (s, ([] : List T))
        (es ++ [Event.scope_end])
      = some (Phase.dead,
          (inst.drop_owned (applyAccesses es v) s, [applyAccesses es v]), none)
    ∧ run (instrument inst) (Phase.live (DropOwned.new v)) (s, ([] : List T))
        (es ++ [Event.scope_end, Event.scope_end]) = none := by
  constructor
  · rw [show DropOwned.new v = DropOwned.mk (ManuallyDrop.occupied v) from rfl,
      run_append_accesses (instrument inst) es hes v (s, []) [Event.scope_end]]
    rfl
  · rw [show DropOwned.new v = DropOwned.mk (ManuallyDrop.occupied v) from rfl,
      run_append_accesses (instrument inst) es hes v (s, [])
        [Event.scope_end, Event.scope_end]]
    rfl

/-- Witness for C1 at concrete inputs: value 5, one mutation adding 1; the
finalizer log ends up holding exactly the single entry 6. -/
theorem new_scope_exit_finalizes_exactly_once_holds :
    (∀ e ∈ ([Event.modify (fun n => n + 1)] : List (Event Nat)),
        isAccess e = true)
    ∧ (run (instrument natInst) (Phase.live (DropOwned.new 5))
          (([] : List Nat), ([] : List Nat))
          ([Event.modify (fun n => n + 1)] ++ [Event.scope_end])
        = some (Phase.dead, ([6], [6]), none)
      ∧ run (instrument natInst) (Phase.live (DropOwned.new 5))
          (([] : List Nat), ([] : List Nat))
          ([Event.modify (fun n => n + 1)] ++ [Event.scope_end, Event.scope_end])
        = none) :=
  ⟨by intro e he; simp only [List.mem_singleton] at he; subst he; rfl,
   new_scope_exit_finalizes_exactly_once natInst 5 [] [Event.modify (fun n => n + 1)]
     (by intro e he; simp only [List.mem_singleton] at he; subst he; rfl)⟩

/-- Claim C2: `into_inner` hands back the contained value (with all mutations
made through the wrapper applied) and the finalizer is never invoked on it —
the instrumented log stays empty, and the wrapper is consumed so no later
finalization can occur; on a freshly constructed wrapper `into_inner` returns
exactly the constructed value. -/
theorem into_inner_skips_finalizer {T S : Type}
    (inst : OwnedDroppable T S) (v : T) (s : S) (es : List (Event T))
    (hes : ∀ e ∈ es, isAccess e = true) :
    run (instrument inst) (Phase.live (DropOwned.new v)) (s, ([] : List T))
        (es ++ [Event.extract])
      = some (Phase.dead, (s, ([] : List T)), some (applyAccesses es v))
    ∧ DropOwned.into_inner (DropOwned.new v) = some v := by
  constructor
  · rw [show DropOwned.new v = DropOwned.mk (ManuallyDrop.occupied v) from rfl,
      run_append_accesses (instrument inst) es hes v (s, []) [Event.extract]]
    rfl
  · rfl

/-- Witness for C2 at concrete inputs: value 3 mutated to 6, extracted; the
caller receives 6 and the finalizer log stays empty. -/
theorem into_inner_skips_finalizer_holds :
    (∀ e ∈ ([Event.modify (fun n => n * 2)] : List (Event Nat)),
        isAccess e = true)
    ∧ (run (instrument natInst) (Phase.live (DropOwned.new 3))
          (([] : List Nat), ([] : List Nat))
          ([Event.modify (fun n => n * 2)] ++ [Event.extract])
        = some (Phase.dead, ([], []), some 6)
      ∧ DropOwned.into_inner (DropOwned.new 3) = some 3) :=
  ⟨by intro e he; simp only [List.mem_singleton] at he; subst he; rfl,
   into_inner_skips_finalizer natInst 3 [] [Event.modify (fun n => n * 2)]
     (by intro e he; simp only [List.mem_singleton] at he; subst he; rfl)⟩

/-- Claim C3: per wrapper instance the slot goes Occupied (at construction) to
Vacated (at most once, via the finalize path or the extraction path but never
both: a nonempty finalizer log excludes an extracted value and conversely),
the finalizer log of any successful lifecycle never exceeds one entry, and the
consumed (vacated) state admits no further event, so no transition leaves
Vacated and repeated teardown cannot finalize twice. -/
theorem wrapper_state_machine {T S : Type} (inst : OwnedDroppable T S)
    (v : T) (s : S) (es : List (Event T)) (p2 : Phase T) (s2 : S)
    (log2 : List T) (ext : Option T) (x : S × List T) (e : Event T)
    (h : run (instrument inst) (Phase.live (DropOwned.new v)) (s, ([] : List T)) es
         = some (p2, (s2, log2), ext)) :
    log2.length ≤ 1 ∧ (log2 = [] ∨ ext = none)
    ∧ step (instrument inst) Phase.dead x e = none := by
  have hspec := run_occupied_spec (instrument inst) es v (s, [])
    (p2, (s2, log2), ext) h
  obtain ⟨v2, hr⟩ | ⟨v2, hr⟩ | ⟨v2, hr⟩ := hspec <;>
    simp only [instrument, Prod.mk.injEq, List.nil_append] at hr
  · obtain ⟨-, ⟨-, hlog⟩, hext⟩ := hr
    subst hlog; subst hext
    exact ⟨by simp, Or.inl rfl, step_dead _ x e⟩
  · obtain ⟨-, ⟨-, hlog⟩, hext⟩ := hr
    subst hlog; subst hext
    exact ⟨by simp, Or.inr rfl, step_dead _ x e⟩
  · obtain ⟨-, ⟨-, hlog⟩, hext⟩ := hr
    subst hlog
    exact ⟨by simp, Or.inl rfl, step_dead _ x e⟩

/-- Witness for C3 at concrete inputs: value 7, immediate scope exit; the run
succeeds, its log has one entry, and the consumed state rejects a further
teardown event. -/
theorem wrapper_state_machine_holds :
    (run (instrument natInst) (Phase.live (DropOwned.new 7))
        (([] : List Nat), ([] : List Nat)) [Event.scope_end]
      = some (Phase.dead, ([7], [7]), none))
    ∧ (([7] : List Nat).length ≤ 1
      ∧ (([7] : List Nat) = [] ∨ (none : Option Nat) = none)
      ∧ step (instrument natInst) Phase.dead ([], []) Event.scope_end = none) :=
  ⟨rfl,
   wrapper_state_machine natInst 7 [] [Event.scope_end] Phase.dead [7] [7] none
     ([], []) Event.scope_end rfl⟩

/-- Claim C4: mutations made through `DerefMut` are visible to every later
access through the same wrapper — after any access sequence the slot holds
`applyAccesses es v` and `Deref` returns it — and that mutated value, not the
originally constructed one, is what `Drop` hands to `drop_owned` and what
`into_inner` returns. -/
theorem deref_mut_mutations_visible {T S : Type} (inst : OwnedDroppable T S)
    (v : T) (s : S) (es : List (Event T))
    (hes : ∀ e ∈ es, isAccess e = true) :
    run inst (Phase.live (DropOwned.new v)) s es
      = some (Phase.live
          (DropOwned.mk (ManuallyDrop.occupied (applyAccesses es v))), s, none)
    ∧ DropOwned.deref (DropOwned.mk (ManuallyDrop.occupied (applyAccesses es v)))
        = some (applyAccesses es v)
    ∧ DropOwned.drop inst
        (DropOwned.mk (ManuallyDrop.occupied (applyAccesses es v))) s
        = some (DropOwned.mk ManuallyDrop.vacated,
            inst.drop_owned (applyAccesses es v) s)
    ∧ DropOwned.into_inner
        (DropOwned.mk (ManuallyDrop.occupied (applyAccesses es v)))
        = some (applyAccesses es v) := by
  refine ⟨?_, rfl, rfl, rfl⟩
  have h := run_append_accesses inst es hes v s []
  rw [List.append_nil] at h
  rw [show DropOwned.new v = DropOwned.mk (ManuallyDrop.occupied v) from rfl, h]
  rfl

/-- Witness for C4 at concrete inputs: value 1 mutated to 11; every access
path and both teardown paths observe 11. -/
theorem deref_mut_mutations_visible_holds :
    (∀ e ∈ ([Event.modify (fun n => n + 10)] : List (Event Nat)),
        isAccess e = true)
    ∧ (run natInst (Phase.live (DropOwned.new 1)) ([] : List Nat)
          [Event.modify (fun n => n + 10)]
        = some (Phase.live (DropOwned.mk (ManuallyDrop.occupied 11)), [], none)
      ∧ DropOwned.deref (DropOwned.mk (ManuallyDrop.occupied 11)) = some 11
      ∧ DropOwned.drop natInst (DropOwned.mk (ManuallyDrop.occupied 11)) []
          = some (DropOwned.mk ManuallyDrop.vacated, [11])
      ∧ DropOwned.into_inner (DropOwned.mk (ManuallyDrop.occupied 11))
          = some 11) :=
  ⟨by intro e he; simp only [List.mem_singleton] at he; subst he; rfl,
   deref_mut_mutations_visible natInst 1 [] [Event.modify (fun n => n + 10)]
     (by intro e he; simp only [List.mem_singleton] at he; subst he; rfl)⟩

/-- Claim C5: during teardown, `ManuallyDrop.take` moves the whole contained
value out of the slot to a temporary and vacates it; taking from the vacated
slot yields nothing (no double-use); the `Drop` body passes exactly the taken
value to `drop_owned`; and the full drop glue runs no ambient destructor on
the contained value — it reaches the finalizer exactly once (no leak). -/
theorem take_transfers_ownership_exactly_once {T S : Type}
    (inst : OwnedDroppable T S) (v : T) (s : S) :
    ManuallyDrop.take (ManuallyDrop.occupied v) = some (v, ManuallyDrop.vacated)
    ∧ ManuallyDrop.take (ManuallyDrop.vacated : ManuallyDrop T) = none
    ∧ DropOwned.drop inst (DropOwned.mk (ManuallyDrop.occupied v)) s
        = some (DropOwned.mk ManuallyDrop.vacated, inst.drop_owned v s)
    ∧ DropOwned.dropGlue (instrument inst) (DropOwned.new v) (s, ([] : List T))
        = some ((inst.drop_owned v s, [v]), ([] : List T)) :=
  ⟨rfl, rfl, rfl, rfl⟩

/-- Claim C6: the `From` conversion is the constructor: `DropOwned.from_val v`
is definitionally `DropOwned.new v`. -/
theorem from_val_eq_new {T : Type} (v : T) :
    DropOwned.from_val v = DropOwned.new v :=
  rfl

/-- Claim C7: `DropOwned.new` is total (no failure mode), places the value
into the occupied slot, and borrowing immediately afterwards yields exactly
the constructed value. -/
theorem new_then_deref_identity {T : Type} (v : T) :
    DropOwned.new v = DropOwned.mk (ManuallyDrop.occupied v)
    ∧ DropOwned.deref (DropOwned.new v) = some v :=
  ⟨rfl, rfl⟩

/-- Claim C8: `Deref` and `DerefMut` never change the occupancy of the slot:
any sequence of access events keeps the wrapper live with an occupied slot and
leaves the external effect state untouched, and a single `DerefMut`
application keeps the slot occupied while a `Deref` merely reads it. -/
theorem access_preserves_occupancy {T S : Type} (inst : OwnedDroppable T S)
    (v : T) (s : S) (es : List (Event T)) (f : T → T)
    (hes : ∀ e ∈ es, isAccess e = true) :
    run inst (Phase.live (DropOwned.mk (ManuallyDrop.occupied v))) s es
      = some (Phase.live
          (DropOwned.mk (ManuallyDrop.occupied (applyAccesses es v))), s, none)
    ∧ DropOwned.deref_mut f (DropOwned.mk (ManuallyDrop.occupied v))
        = some (DropOwned.mk (ManuallyDrop.occupied (f v)))
    ∧ DropOwned.deref (DropOwned.mk (ManuallyDrop.occupied v)) = some v := by
  refine ⟨?_, rfl, rfl⟩
  have h := run_append_accesses inst es hes v s []
  rw [List.append_nil] at h
  rw [h]
  rfl

/-- Witness for C8 at concrete inputs: value 4, one read access and one
mutable access adding 2; the slot stays occupied throughout. -/
theorem access_preserves_occupancy_holds :
    (∀ e ∈ ([Event.read] : List (Event Nat)), isAccess e = true)
    ∧ (run natInst (Phase.live (DropOwned.mk (ManuallyDrop.occupied 4)))
          ([] : List Nat) [Event.read]
        = some (Phase.live (DropOwned.mk (ManuallyDrop.occupied 4)), [], none)
      ∧ DropOwned.deref_mut (fun n => n + 2)
          (DropOwned.mk (ManuallyDrop.occupied 4))
          = some (DropOwned.mk (ManuallyDrop.occupied 6))
      ∧ DropOwned.deref (DropOwned.mk (ManuallyDrop.occupied 4)) = some 4) :=
  ⟨by intro e he; simp only [List.mem_singleton] at he; subst he; rfl,
   access_preserves_occupancy natInst 4 [] [Event.read] (fun n => n + 2)
     (by intro e he; simp only [List.mem_singleton] at he; subst he; rfl)⟩

/-- Claim C9: when the finalizer fails during teardown, the `Drop` body
propagates exactly that failure (no suppression, no retry, no recovery: the
instrumented log shows a single invocation), the slot is already vacated, and
no further teardown action on the extracted value is possible. -/
theorem drop_propagates_finalizer_failure {T S E : Type}
    (inst : OwnedDroppableF T S E) (v : T) (s : S) (x : S × List T) :
    DropOwned.dropF (instrumentF inst) (DropOwned.new v) (s, ([] : List T))
      = some (DropOwned.mk ManuallyDrop.vacated,
          ((inst.drop_owned v s).1, [v]), (inst.drop_owned v s).2)
    ∧ DropOwned.dropF (instrumentF inst) (DropOwned.mk ManuallyDrop.vacated) x
        = none :=
  ⟨rfl, rfl⟩

/-- Claim C10: the free convenience function `drop_owned` is extensionally
(indeed definitionally) the constructor `DropOwned.new`. -/
theorem drop_owned_fn_eq_new {T : Type} (v : T) :
    drop_owned v = DropOwned.new v :=
  rfl

end OwnedDrop
